import Mathlib

/-!
Verification of the fragment-composition core of the sql-template-tag
library.  The library has two variants: a class whose instances pair a list
of literal text segments (strings) with a list of bound parameters (values),
offering several marker-rendering views, and a plain-object variant that
immediately renders a query string with anonymous markers.  Both are embedded
here as pure functions; a thrown TypeError is modelled as an Except.error.
-/

namespace SqlTemplateTag

/-- A composed SQL fragment: `strings` holds the literal text segments and
`values` the bound parameters, mirroring the two fields of the `Sql` class.
`V` is the (opaque) type of parameter values. -/
structure Sql (V : Type) where
  strings : List String
  values : List V
  deriving DecidableEq

/-- A raw value handed to the composer: either an opaque scalar or a nested
`Sql` fragment (the source detects the latter with an `instanceof Sql`
check). -/
inductive RawValue (V : Type) where
  | scalar : V → RawValue V
  | frag : Sql V → RawValue V
  deriving DecidableEq

/-- Construction-time failures (each is a thrown TypeError in the source,
distinguished here by the spec's error taxonomy; each constructor carries the
numbers interpolated into the source's message). -/
inductive SqlError where
  | emptyTemplate : SqlError
  | arityMismatch : Nat → Nat → SqlError
  | emptyJoinInput : SqlError
  | emptyBulkInput : SqlError
  | raggedBulkInput : Nat → Nat → Nat → SqlError
  deriving DecidableEq

/-- The exact TypeError message the source produces for each failure. -/
def SqlError.message : SqlError → String
  | .emptyTemplate => "Expected at least 1 string"
  | .arityMismatch strings expected =>
      "Expected " ++ Nat.repr strings ++ " strings to have " ++
        Nat.repr expected ++ " values"
  | .emptyJoinInput =>
      "Expected `join([])` to be called with an array of multiple elements, but got an empty array"
  | .emptyBulkInput =>
      "Expected `bulk([][])` to be called with a nested array of multiple elements, but got an empty array"
  | .raggedBulkInput index expected got =>
      "Expected `bulk([" ++ Nat.repr index ++ "][])` to have a length of " ++
        Nat.repr expected ++ ", but got " ++ Nat.repr got

variable {V : Type}

/-- The inner `while (childIndex < child.values.length)` loop of the `Sql`
constructor: each child value is emitted, the output segment being built is
finished, and the child segment following the value starts the next output
segment.  Takes the segment being built and the child's values paired with the
child segment that follows each of them; returns (finished output segments,
emitted values, the segment now being built). -/
def spliceChild : String → List (V × String) → List String × List V × String
  | cur, [] => ([], [], cur)
  | cur, (w, t) :: rest =>
      let p := spliceChild t rest
      (cur :: p.1, w :: p.2.1, p.2.2)

/-- The main `while (i < rawValues.length)` loop of the `Sql` constructor.
`cur` is the output segment currently being built (`this.strings[pos]`); each
raw value is paired with the literal segment that follows it
(`rawStrings[i + 1]`).  A scalar is emitted as a value and the following
literal starts the next output segment; a nested fragment has its first
segment appended to the current one, its values and interior segments spliced
in by `spliceChild`, and the following literal appended to its last
segment. -/
def composeAux : String → List (RawValue V × String) → List String × List V
  | cur, [] => ([cur], [])
  | cur, (.scalar v, rs) :: rest =>
      let p := composeAux rs rest
      (cur :: p.1, v :: p.2)
  | cur, (.frag f, rs) :: rest =>
      let c := spliceChild (cur ++ f.strings.headD "") (f.values.zip f.strings.tail)
      let p := composeAux (c.2.2 ++ rs) rest
      (c.1 ++ p.1, c.2.1 ++ p.2)

/-- The `Sql` constructor.  The arity precondition
(`rawStrings.length - 1 !== rawValues.length`) is computed over the integers
exactly as in the source, so an empty segment list always fails; the
zero-segment case and the general mismatch throw different messages.  On
success the merge loop runs with `strings[0] = rawStrings[0]` as the first
output segment. -/
def compose (rawStrings : List String) (rawValues : List (RawValue V)) :
    Except SqlError (Sql V) :=
  if (rawStrings.length : Int) - 1 ≠ (rawValues.length : Int) then
    if rawStrings.length = 0 then
      .error .emptyTemplate
    else
      .error (.arityMismatch rawStrings.length (rawStrings.length - 1))
  else
    let p := composeAux (rawStrings.headD "") (rawValues.zip rawStrings.tail)
    .ok ⟨p.1, p.2⟩

/-- Loop of the `sql` getter: `value += "?" + strings[i]`. -/
def sqlLoop : String → List String → String
  | acc, [] => acc
  | acc, t :: rest => sqlLoop (acc ++ "?" ++ t) rest

/-- Loop of the `text` getter: `value += "$" + i + strings[i]`, with `i`
counting from 1. -/
def textLoop : String → Nat → List String → String
  | acc, _, [] => acc
  | acc, i, t :: rest => textLoop (acc ++ "$" ++ Nat.repr i ++ t) (i + 1) rest

/-- Loop of the `statement` getter: `value += ":" + i + strings[i]`, with `i`
counting from 1. -/
def statementLoop : String → Nat → List String → String
  | acc, _, [] => acc
  | acc, i, t :: rest => statementLoop (acc ++ ":" ++ Nat.repr i ++ t) (i + 1) rest

/-- The `sql` getter: the anonymous-marker rendering view. -/
def Sql.sql (s : Sql V) : String := sqlLoop (s.strings.headD "") s.strings.tail

/-- The `text` getter: the numbered rendering view with markers `$1`, `$2`,
and so on. -/
def Sql.text (s : Sql V) : String := textLoop (s.strings.headD "") 1 s.strings.tail

/-- The `statement` getter: the alternate numbered rendering view with markers
`:1`, `:2`, and so on. -/
def Sql.statement (s : Sql V) : String :=
  statementLoop (s.strings.headD "") 1 s.strings.tail

/-- The `query` getter, an alias for the `sql` view. -/
def Sql.query (s : Sql V) : String := s.sql

/-- The `params` getter: returns the composed values unchanged. -/
def Sql.params (s : Sql V) : List V := s.values

/-- The `join` builder with separator `sep`, leading literal `pre` and
trailing literal `suf` (the source's defaults are ",", "" and "").  An empty
value list throws; otherwise the values are composed against the literal
segments `[pre, sep, ..., sep, suf]`. -/
def join (values : List (RawValue V)) (sep pre suf : String) :
    Except SqlError (Sql V) :=
  if values.length = 0 then
    .error .emptyJoinInput
  else
    compose (pre :: (List.replicate (values.length - 1) sep ++ [suf])) values

/-- The `data.map` pass of `bulk`: builds one parenthesized tuple fragment per
row, failing on the first row (in index order) whose length differs from the
first row's length `len`. -/
def bulkRows (sep : String) (len : Nat) :
    Nat → List (List (RawValue V)) → Except SqlError (List (Sql V))
  | _, [] => .ok []
  | idx, item :: rest =>
      if item.length ≠ len then
        .error (.raggedBulkInput idx len item.length)
      else do
        let s ← compose ("(" :: (List.replicate (item.length - 1) sep ++ [")"])) item
        let srest ← bulkRows sep len (idx + 1) rest
        .ok (s :: srest)

/-- The `bulk` builder.  `data.length && data[0].length` is zero exactly when
the row list or the first row is empty; otherwise each row becomes a
parenthesized tuple fragment and the tuples are composed against
`[pre, sep, ..., sep, suf]`. -/
def bulk (data : List (List (RawValue V))) (sep pre suf : String) :
    Except SqlError (Sql V) :=
  let len := match data with
    | [] => 0
    | r0 :: _ => r0.length
  if len = 0 then
    .error .emptyBulkInput
  else do
    let values ← bulkRows sep len 0 data
    compose (pre :: (List.replicate (values.length - 1) sep ++ [suf]))
      (values.map .frag)

/-- The `raw` builder: `new Sql([value], [])`. -/
def raw (value : String) : Except SqlError (Sql V) := compose [value] []

/-- The `empty` constant: `raw("")`. -/
def empty : Except SqlError (Sql V) := raw ""

/-- The template tag (the default export): `new Sql(strings, values)`. -/
def sql (strings : List String) (values : List (RawValue V)) :
    Except SqlError (Sql V) :=
  compose strings values

/-- A raw value of the plain-object variant.  `isQueryObject` duck types: any
non-null object carrying both a "query" and a "params" property passes the
test, so `queryLike q ps` stands for every such value (whether produced by
this library or supplied by the caller as ordinary data), with `q` its query
text and `ps` its params list; `other` stands for every value failing the
test. -/
inductive PoValue (V : Type) where
  | other : V → PoValue V
  | queryLike : String → List (PoValue V) → PoValue V

/-- The plain `{ query, params }` object returned by the plain-object
variant. -/
structure SqlQuery (V : Type) where
  query : String
  params : List (PoValue V)

/-- The `for (let i = 0; ...)` loop of `processQuery`: `res` is the text built
so far, `acc` the params pushed so far; each raw value is paired with the
literal segment that follows it.  A query-shaped value has its query text
inlined and its params pushed; any other value is pushed itself and rendered
as a "?" marker. -/
def processLoop : String → List (PoValue V) → List (PoValue V × String) →
    String × List (PoValue V)
  | res, acc, [] => (res, acc)
  | res, acc, (.queryLike q ps, rs) :: rest =>
      processLoop (res ++ q ++ rs) (acc ++ ps) rest
  | res, acc, (.other v, rs) :: rest =>
      processLoop (res ++ "?" ++ rs) (acc ++ [.other v]) rest

/-- `processQuery` of the plain-object variant: the same arity check as the
class constructor, then a single pass that appends either an inlined query
text or a "?" marker after each literal segment. -/
def processQuery (rawStrings : List String) (rawValues : List (PoValue V)) :
    Except SqlError (SqlQuery V) :=
  if (rawStrings.length : Int) - 1 ≠ (rawValues.length : Int) then
    if rawStrings.length = 0 then
      .error .emptyTemplate
    else
      .error (.arityMismatch rawStrings.length (rawStrings.length - 1))
  else
    let p := processLoop (rawStrings.headD "") [] (rawValues.zip rawStrings.tail)
    .ok ⟨p.1, p.2⟩

/-- The arity invariant of the data model: one more segment than there are
parameters. -/
def Sql.WF (s : Sql V) : Prop := s.strings.length = s.values.length + 1

instance (s : Sql V) : Decidable s.WF :=
  inferInstanceAs (Decidable (_ = _))

/-- A raw value is well formed when a nested fragment satisfies the arity
invariant (every fragment actually produced by the constructor does); scalars
always are. -/
def RawValue.WF : RawValue V → Prop
  | .scalar _ => True
  | .frag f => f.WF

instance (v : RawValue V) : Decidable v.WF := by
  cases v with
  | scalar w => exact inferInstanceAs (Decidable True)
  | frag f => exact inferInstanceAs (Decidable (_ = _))

/-- The parameter slots a raw value contributes to a composition: a scalar
contributes itself, a nested fragment contributes its own parameters. -/
def RawValue.paramsOf : RawValue V → List V
  | .scalar v => [v]
  | .frag f => f.values

/-- Left-to-right concatenation of the parameter contributions of a raw value
sequence (no reordering, no deduplication). -/
def flatParams : List (RawValue V) → List V
  | [] => []
  | v :: vs => v.paramsOf ++ flatParams vs

/-- Spec-side definition for the flattening claim, following the spec's words
rather than the code: the fully pre-flattened equivalent input.  Each nested
fragment's first segment is concatenated onto the preceding outer literal, its
parameters and interior segments are spliced in order, and its last segment is
concatenated onto the outer literal that follows the fragment.  The final
catch-all case covers inputs violating the arity precondition and is
unreachable under the hypotheses of the theorems below. -/
def specPreflatten : List String → List (RawValue V) → List String × List V
  | ss, [] => (ss, [])
  | s0 :: s1 :: rest, .scalar v :: vs =>
      let p := specPreflatten (s1 :: rest) vs
      (s0 :: p.1, v :: p.2)
  | s0 :: s1 :: rest, .frag f :: vs =>
      let merged := (s0 ++ f.strings.headD "") :: f.strings.tail
      let p := specPreflatten ((merged.getLastD "" ++ s1) :: rest) vs
      (merged.dropLast ++ p.1, f.values ++ p.2)
  | ss, _ :: _ => (ss, [])

/-- Concatenation of a list of strings. -/
def concatAll : List String → String
  | [] => ""
  | s :: rest => s ++ concatAll rest

/-- Markers interleaved between consecutive literal segments: segment 0,
marker 1, segment 1, marker 2, segment 2, and so on. -/
def interleave (segs markers : List String) : String :=
  segs.headD "" ++ concatAll ((markers.zip segs.tail).map fun p => p.1 ++ p.2)

/-- n copies of the anonymous marker. -/
def anonMarkers (n : Nat) : List String := List.replicate n "?"

/-- The markers "$1", ..., "$n". -/
def dollarMarkers (n : Nat) : List String :=
  (List.range' 1 n).map fun i => "$" ++ Nat.repr i

/-- The markers ":1", ..., ":n". -/
def colonMarkers (n : Nat) : List String :=
  (List.range' 1 n).map fun i => ":" ++ Nat.repr i

/-- Number of occurrences of a character in a string. -/
def countChar (c : Char) (s : String) : Nat := s.data.count c

/-- The text a raw value contributes to the plain-object variant's query
string: query-shaped values are inlined verbatim, everything else becomes a
"?" marker. -/
def PoValue.inlineText : PoValue V → String
  | .other _ => "?"
  | .queryLike q _ => q

/-- The parameter entries a raw value contributes in the plain-object
variant: a query-shaped value contributes its params list, never itself;
every other value contributes itself. -/
def PoValue.contribution : PoValue V → List (PoValue V)
  | .other v => [.other v]
  | .queryLike _ ps => ps

/-- Left-to-right concatenation of plain-object parameter contributions. -/
def poFlatParams : List (PoValue V) → List (PoValue V)
  | [] => []
  | v :: vs => v.contribution ++ poFlatParams vs

/-! ### Basic facts about the composer loops -/

theorem spliceChild_length (cur : String) (l : List (V × String)) :
    (spliceChild cur l).1.length = l.length ∧ (spliceChild cur l).2.1.length = l.length := by
  induction l generalizing cur with
  | nil => simp [spliceChild]
  | cons p rest ih =>
    obtain ⟨w, t⟩ := p
    simp [spliceChild, ih t]

theorem composeAux_length (pairs : List (RawValue V × String)) :
    ∀ cur, (composeAux cur pairs).1.length = (composeAux cur pairs).2.length + 1 := by
  induction pairs with
  | nil => intro cur; simp [composeAux]
  | cons p rest ih =>
    intro cur
    obtain ⟨v, rs⟩ := p
    cases v with
    | scalar w => simp [composeAux, ih]
    | frag f =>
      have hs := spliceChild_length (cur ++ f.strings.headD "") (f.values.zip f.strings.tail)
      have hi := ih ((spliceChild (cur ++ f.strings.headD "") (f.values.zip f.strings.tail)).2.2 ++ rs)
      simp only [composeAux, List.length_append]
      omega

theorem compose_eq_ok (ss : List String) (vs : List (RawValue V))
    (h : ss.length = vs.length + 1) :
    compose ss vs =
      .ok ⟨(composeAux (ss.headD "") (vs.zip ss.tail)).1,
           (composeAux (ss.headD "") (vs.zip ss.tail)).2⟩ := by
  have hc : ¬(((ss.length : Int) - 1) ≠ (vs.length : Int)) := by omega
  rw [compose, if_neg hc]

theorem compose_nil (vs : List (RawValue V)) :
    compose [] vs = .error .emptyTemplate := by
  have hc : ((([] : List String).length : Int) - 1 ≠ (vs.length : Int)) := by
    simp
  rw [compose, if_pos hc]
  simp

theorem compose_mismatch (ss : List String) (vs : List (RawValue V))
    (hne : ss ≠ []) (h : ss.length ≠ vs.length + 1) :
    compose ss vs = .error (.arityMismatch ss.length (ss.length - 1)) := by
  have hc : (((ss.length : Int) - 1) ≠ (vs.length : Int)) := by omega
  have hlen : ¬(ss.length = 0) := by
    simpa [List.length_eq_zero] using hne
  rw [compose, if_pos hc, if_neg hlen]

theorem compose_ok_wf (ss : List String) (vs : List (RawValue V)) (q : Sql V)
    (h : compose ss vs = .ok q) : q.WF := by
  by_cases harity : ss.length = vs.length + 1
  · rw [compose_eq_ok ss vs harity] at h
    cases h
    exact composeAux_length _ _
  · by_cases hnil : ss = []
    · subst hnil
      rw [compose_nil] at h
      cases h
    · rw [compose_mismatch ss vs hnil harity] at h
      cases h

theorem spliceChild_zip (cur : String) (ws : List V) (ts : List String)
    (h : ws.length = ts.length) :
    spliceChild cur (ws.zip ts) =
      ((cur :: ts).dropLast, ws, (cur :: ts).getLastD "") := by
  induction ws generalizing cur ts with
  | nil =>
    cases ts with
    | nil => simp [spliceChild]
    | cons t ts => simp at h
  | cons w ws ih =>
    cases ts with
    | nil => simp at h
    | cons t ts =>
      simp only [List.length_cons, Nat.add_right_cancel_iff] at h
      rw [List.zip_cons_cons]
      simp only [spliceChild]
      rw [ih t ts h]
      simp [List.getLastD_cons]

theorem composeAux_values (vs : List (RawValue V)) :
    ∀ (cur : String) (ss : List String), vs.length = ss.length →
      (∀ v ∈ vs, v.WF) → (composeAux cur (vs.zip ss)).2 = flatParams vs := by
  induction vs with
  | nil => intro cur ss h hwf; simp [composeAux, flatParams]
  | cons v vs ih =>
    intro cur ss h hwf
    cases ss with
    | nil => simp at h
    | cons s1 rest =>
      simp only [List.length_cons, Nat.add_right_cancel_iff] at h
      have hwfv := hwf v (by simp)
      have hwfrest : ∀ w ∈ vs, w.WF := fun w hw => hwf w (by simp [hw])
      cases v with
      | scalar w =>
        rw [List.zip_cons_cons]
        simp only [composeAux]
        rw [ih s1 rest h hwfrest]
        simp [flatParams, RawValue.paramsOf]
      | frag f =>
        have hwf2 : f.strings.length = f.values.length + 1 := hwfv
        have hf : f.values.length = f.strings.tail.length := by
          rw [List.length_tail]
          omega
        have hz := spliceChild_zip (cur ++ f.strings.headD "") f.values f.strings.tail hf
        have hih := ih ((((cur ++ f.strings.headD "") :: f.strings.tail).getLastD "") ++ s1)
          rest h hwfrest
        simp only [List.headD_eq_head?, List.getLastD_eq_getLast?] at hih
        rw [List.zip_cons_cons]
        simp only [composeAux]
        rw [hz]
        simp [flatParams, RawValue.paramsOf, hih]

theorem composeAux_scalars (vs : List V) :
    ∀ (cur : String) (ss : List String), vs.length = ss.length →
      composeAux cur ((vs.map RawValue.scalar).zip ss) = (cur :: ss, vs) := by
  induction vs with
  | nil =>
    intro cur ss h
    cases ss with
    | nil => simp [composeAux]
    | cons s1 rest => simp at h
  | cons v vs ih =>
    intro cur ss h
    cases ss with
    | nil => simp at h
    | cons s1 rest =>
      simp only [List.length_cons, Nat.add_right_cancel_iff] at h
      rw [List.map_cons, List.zip_cons_cons]
      simp only [composeAux]
      rw [ih s1 rest h]

theorem composeAux_preflatten (vs : List (RawValue V)) :
    ∀ (cur : String) (ss : List String), vs.length = ss.length →
      (∀ v ∈ vs, v.WF) →
      composeAux cur (vs.zip ss) = specPreflatten (cur :: ss) vs := by
  induction vs with
  | nil =>
    intro cur ss h hwf
    cases ss with
    | nil => simp [composeAux, specPreflatten]
    | cons s1 rest => simp at h
  | cons v vs ih =>
    intro cur ss h hwf
    cases ss with
    | nil => simp at h
    | cons s1 rest =>
      simp only [List.length_cons, Nat.add_right_cancel_iff] at h
      have hwfv := hwf v (by simp)
      have hwfrest : ∀ w ∈ vs, w.WF := fun w hw => hwf w (by simp [hw])
      cases v with
      | scalar w =>
        rw [List.zip_cons_cons]
        simp only [composeAux, specPreflatten]
        rw [ih s1 rest h hwfrest]
      | frag f =>
        have hwf2 : f.strings.length = f.values.length + 1 := hwfv
        have hf : f.values.length = f.strings.tail.length := by
          rw [List.length_tail]
          omega
        have hz := spliceChild_zip (cur ++ f.strings.headD "") f.values f.strings.tail hf
        have hih := ih ((((cur ++ f.strings.headD "") :: f.strings.tail).getLastD "") ++ s1)
          rest h hwfrest
        simp only [List.headD_eq_head?, List.getLastD_eq_getLast?] at hih
        rw [List.zip_cons_cons]
        simp only [composeAux, specPreflatten]
        rw [hz]
        simp [hih]

/-! ### The rendering views as marker interleavings -/

theorem sqlLoop_eq (ts : List String) :
    ∀ acc, sqlLoop acc ts =
      acc ++ concatAll (((anonMarkers ts.length).zip ts).map fun p => p.1 ++ p.2) := by
  induction ts with
  | nil => intro acc; simp [sqlLoop, anonMarkers, concatAll]
  | cons t ts ih =>
    intro acc
    simp only [sqlLoop, anonMarkers, List.length_cons, List.replicate_succ,
      List.zip_cons_cons, List.map_cons, concatAll]
    rw [ih]
    simp [anonMarkers, String.append_assoc, List.zip_eq_zipWith]

theorem textLoop_eq (ts : List String) :
    ∀ (acc : String) (i : Nat), textLoop acc i ts =
      acc ++ concatAll ((((List.range' i ts.length).map fun j => "$" ++ Nat.repr j).zip ts).map
        fun p => p.1 ++ p.2) := by
  induction ts with
  | nil => intro acc i; simp [textLoop, concatAll]
  | cons t ts ih =>
    intro acc i
    simp only [textLoop, List.length_cons, List.range'_succ, List.map_cons,
      List.zip_cons_cons, concatAll]
    rw [ih]
    simp [String.append_assoc, List.zip_eq_zipWith]

theorem statementLoop_eq (ts : List String) :
    ∀ (acc : String) (i : Nat), statementLoop acc i ts =
      acc ++ concatAll ((((List.range' i ts.length).map fun j => ":" ++ Nat.repr j).zip ts).map
        fun p => p.1 ++ p.2) := by
  induction ts with
  | nil => intro acc i; simp [statementLoop, concatAll]
  | cons t ts ih =>
    intro acc i
    simp only [statementLoop, List.length_cons, List.range'_succ, List.map_cons,
      List.zip_cons_cons, concatAll]
    rw [ih]
    simp [String.append_assoc, List.zip_eq_zipWith]

theorem sql_eq_interleave (s : Sql V) :
    s.sql = interleave s.strings (anonMarkers (s.strings.length - 1)) := by
  cases hs : s.strings with
  | nil => simp [Sql.sql, hs, interleave, sqlLoop, concatAll]
  | cons s0 tail =>
    simp only [Sql.sql, hs, List.headD_cons, List.tail_cons, interleave,
      List.length_cons, Nat.add_sub_cancel]
    rw [sqlLoop_eq]

theorem text_eq_interleave (s : Sql V) :
    s.text = interleave s.strings (dollarMarkers (s.strings.length - 1)) := by
  cases hs : s.strings with
  | nil => simp [Sql.text, hs, interleave, textLoop, concatAll]
  | cons s0 tail =>
    simp only [Sql.text, hs, List.headD_cons, List.tail_cons, interleave,
      List.length_cons, Nat.add_sub_cancel, dollarMarkers]
    rw [textLoop_eq]

theorem statement_eq_interleave (s : Sql V) :
    s.statement = interleave s.strings (colonMarkers (s.strings.length - 1)) := by
  cases hs : s.strings with
  | nil => simp [Sql.statement, hs, interleave, statementLoop, concatAll]
  | cons s0 tail =>
    simp only [Sql.statement, hs, List.headD_cons, List.tail_cons, interleave,
      List.length_cons, Nat.add_sub_cancel, colonMarkers]
    rw [statementLoop_eq]

/-! ### Counting marker characters -/

theorem countChar_append (c : Char) (a b : String) :
    countChar c (a ++ b) = countChar c a + countChar c b := by
  simp [countChar, String.data_append, List.count_append]

theorem countChar_markers (c : Char) (markers : List String) :
    ∀ ts : List String, markers.length = ts.length →
      (∀ m ∈ markers, countChar c m = 1) → (∀ t ∈ ts, countChar c t = 0) →
      countChar c (concatAll ((markers.zip ts).map fun p => p.1 ++ p.2)) =
        markers.length := by
  induction markers with
  | nil => intro ts h hm ht; simp [concatAll, countChar]
  | cons m ms ih =>
    intro ts h hm ht
    cases ts with
    | nil => simp at h
    | cons t ts =>
      simp only [List.length_cons, Nat.add_right_cancel_iff] at h
      rw [List.zip_cons_cons, List.map_cons]
      simp only [concatAll]
      rw [countChar_append, countChar_append, hm m (by simp), ht t (by simp),
        ih ts h (fun x hx => hm x (by simp [hx])) (fun x hx => ht x (by simp [hx]))]
      simp only [List.length_cons]
      omega

theorem countChar_interleave (c : Char) (segs markers : List String)
    (hm : ∀ m ∈ markers, countChar c m = 1)
    (hs : ∀ t ∈ segs, countChar c t = 0)
    (hlen : markers.length + 1 = segs.length) :
    countChar c (interleave segs markers) = markers.length := by
  cases segs with
  | nil => simp at hlen
  | cons s0 tail =>
    simp only [List.length_cons, Nat.add_right_cancel_iff] at hlen
    simp only [interleave, List.headD_cons, List.tail_cons]
    rw [countChar_append, hs s0 (by simp),
      countChar_markers c markers tail hlen hm (fun x hx => hs x (by simp [hx]))]
    omega

theorem digitChar_star (n : Nat) (h : 16 ≤ n) : Nat.digitChar n = '*' := by
  have h0 : n ≠ 0 := by omega
  have h1 : n ≠ 1 := by omega
  have h2 : n ≠ 2 := by omega
  have h3 : n ≠ 3 := by omega
  have h4 : n ≠ 4 := by omega
  have h5 : n ≠ 5 := by omega
  have h6 : n ≠ 6 := by omega
  have h7 : n ≠ 7 := by omega
  have h8 : n ≠ 8 := by omega
  have h9 : n ≠ 9 := by omega
  have h10 : n ≠ 10 := by omega
  have h11 : n ≠ 11 := by omega
  have h12 : n ≠ 12 := by omega
  have h13 : n ≠ 13 := by omega
  have h14 : n ≠ 14 := by omega
  have h15 : n ≠ 15 := by omega
  simp only [Nat.digitChar, h0, h1, h2, h3, h4, h5, h6, h7, h8, h9, h10, h11,
    h12, h13, h14, h15, if_false]

theorem digitChar_ne (n : Nat) (c : Char) (hc : c = '?' ∨ c = '$' ∨ c = ':') :
    Nat.digitChar n ≠ c := by
  by_cases h : n < 16
  · rcases hc with rfl | rfl | rfl <;> (interval_cases n <;> decide)
  · rw [digitChar_star n (by omega)]
    rcases hc with rfl | rfl | rfl <;> decide

theorem toDigitsCore_mem (b : Nat) (fuel : Nat) :
    ∀ (n : Nat) (ds : List Char) (c : Char), c ∈ Nat.toDigitsCore b fuel n ds →
      c ∈ ds ∨ ∃ m, c = Nat.digitChar m := by
  induction fuel with
  | zero =>
    intro n ds c h
    left
    simpa [Nat.toDigitsCore] using h
  | succ fuel ih =>
    intro n ds c h
    simp only [Nat.toDigitsCore] at h
    split at h
    · rcases List.mem_cons.mp h with rfl | hds
      · exact Or.inr ⟨n % b, rfl⟩
      · exact Or.inl hds
    · rcases ih (n / b) (Nat.digitChar (n % b) :: ds) c h with hds | hd
      · rcases List.mem_cons.mp hds with rfl | hds2
        · exact Or.inr ⟨n % b, rfl⟩
        · exact Or.inl hds2
      · exact Or.inr hd

theorem countChar_repr (i : Nat) (c : Char) (hc : c = '?' ∨ c = '$' ∨ c = ':') :
    countChar c (Nat.repr i) = 0 := by
  have hnot : c ∉ Nat.toDigits 10 i := by
    intro hmem
    rcases toDigitsCore_mem 10 (i + 1) i [] c (by simpa [Nat.toDigits] using hmem) with
      h0 | ⟨m, hm⟩
    · simp at h0
    · exact digitChar_ne m c hc hm.symm
  have hdata : (Nat.repr i).data = Nat.toDigits 10 i := rfl
  simp [countChar, hdata, List.count_eq_zero.mpr hnot]

theorem countChar_anonMarkers (m : String) (n : Nat) (hm : m ∈ anonMarkers n) :
    countChar '?' m = 1 := by
  simp only [anonMarkers, List.mem_replicate] at hm
  rw [hm.2]
  decide

theorem countChar_dollarMarkers (m : String) (n : Nat) (hm : m ∈ dollarMarkers n) :
    countChar '$' m = 1 := by
  simp only [dollarMarkers, List.mem_map] at hm
  obtain ⟨i, _, heq⟩ := hm
  rw [← heq, countChar_append, countChar_repr i '$' (by simp)]
  decide

theorem countChar_colonMarkers (m : String) (n : Nat) (hm : m ∈ colonMarkers n) :
    countChar ':' m = 1 := by
  simp only [colonMarkers, List.mem_map] at hm
  obtain ⟨i, _, heq⟩ := hm
  rw [← heq, countChar_append, countChar_repr i ':' (by simp)]
  decide

/-! ### Facts about the convenience builders -/

theorem exceptOkBind {ε α β : Type} (a : α) (f : α → Except ε β) :
    (Except.ok a >>= f : Except ε β) = f a := rfl

theorem exceptErrorBind {ε α β : Type} (e : ε) (f : α → Except ε β) :
    (Except.error e >>= f : Except ε β) = .error e := rfl

theorem bulk_nil (sep pre suf : String) :
    bulk ([] : List (List (RawValue V))) sep pre suf = .error .emptyBulkInput := by
  simp [bulk]

theorem bulk_nil_row (rest : List (List (RawValue V))) (sep pre suf : String) :
    bulk ([] :: rest) sep pre suf = .error .emptyBulkInput := by
  simp [bulk]

theorem bulk_cons (r0 : List (RawValue V)) (rest : List (List (RawValue V)))
    (sep pre suf : String) (h : r0.length ≠ 0) :
    bulk (r0 :: rest) sep pre suf =
      (bulkRows sep r0.length 0 (r0 :: rest)) >>= fun values =>
        compose (pre :: (List.replicate (values.length - 1) sep ++ [suf]))
          (values.map .frag) := by
  simp [bulk, h]

theorem bulkRows_eq_mapM (sep : String) (len : Nat) :
    ∀ (data : List (List (RawValue V))) (idx : Nat), (∀ r ∈ data, r.length = len) →
      bulkRows sep len idx data =
        data.mapM fun row =>
          compose ("(" :: (List.replicate (row.length - 1) sep ++ [")"])) row := by
  intro data
  induction data with
  | nil => intro idx h; simp [bulkRows, List.mapM_nil]; rfl
  | cons r rest ih =>
    intro idx h
    have hr := h r (by simp)
    simp only [bulkRows, if_neg (by omega : ¬(r.length ≠ len))]
    rw [List.mapM_cons, ih (idx + 1) (fun x hx => h x (by simp [hx]))]
    rfl

theorem rowFrags_ok (sep : String) (len : Nat) (hlen : len ≠ 0)
    (data : List (List (RawValue V))) (hall : ∀ r ∈ data, r.length = len) :
    ∃ frs : List (Sql V),
      (data.mapM fun row =>
        compose ("(" :: (List.replicate (row.length - 1) sep ++ [")"])) row) = .ok frs ∧
      frs.length = data.length := by
  induction data with
  | nil => exact ⟨[], by rw [List.mapM_nil]; rfl, rfl⟩
  | cons r rest ih =>
    obtain ⟨frs, hfrs, hl⟩ := ih (fun x hx => hall x (by simp [hx]))
    have hr := hall r (by simp)
    have harity : ("(" :: (List.replicate (r.length - 1) sep ++ [")"])).length =
        r.length + 1 := by
      simp
      omega
    rw [List.mapM_cons, compose_eq_ok _ _ harity, exceptOkBind, hfrs, exceptOkBind]
    exact ⟨_, rfl, by simp [hl]⟩

theorem bulkRows_ragged (sep : String) (len : Nat) (hlen : len ≠ 0) :
    ∀ (data : List (List (RawValue V))) (idx i : Nat),
      i < data.length → (data.getD i []).length ≠ len →
      (∀ j < i, (data.getD j []).length = len) →
      bulkRows sep len idx data =
        .error (.raggedBulkInput (idx + i) len (data.getD i []).length) := by
  intro data
  induction data with
  | nil => intro idx i hi; simp at hi
  | cons r rest ih =>
    intro idx i hi hdiff hbefore
    cases i with
    | zero =>
      simp only [List.getD_cons_zero] at hdiff ⊢
      simp only [bulkRows, if_pos hdiff, Nat.add_zero]
    | succ i =>
      have hr : r.length = len := by
        have := hbefore 0 (Nat.succ_pos i)
        simpa using this
      have harity : ("(" :: (List.replicate (r.length - 1) sep ++ [")"])).length =
          r.length + 1 := by
        simp
        omega
      have hi2 : i < rest.length := by simpa using hi
      have hdiff2 : (rest.getD i []).length ≠ len := by
        simpa [List.getD_cons_succ] using hdiff
      have hbefore2 : ∀ j, j < i → (rest.getD j []).length = len := by
        intro j hj
        have hb := hbefore (j + 1) (by omega)
        simpa [List.getD_cons_succ] using hb
      have hrec := ih (idx + 1) i hi2 hdiff2 hbefore2
      simp only [bulkRows, if_neg (by omega : ¬(r.length ≠ len))]
      rw [compose_eq_ok _ _ harity, exceptOkBind, hrec, exceptErrorBind]
      have hidx : idx + 1 + i = idx + (i + 1) := by omega
      rw [hidx, List.getD_cons_succ]

/-! ### The plain-object variant loop -/

theorem processLoop_spec (pairs : List (PoValue V × String)) :
    ∀ (res : String) (acc : List (PoValue V)),
      processLoop res acc pairs =
        (res ++ concatAll (pairs.map fun p => p.1.inlineText ++ p.2),
         acc ++ poFlatParams (pairs.map Prod.fst)) := by
  induction pairs with
  | nil => intro res acc; simp [processLoop, concatAll, poFlatParams]
  | cons p rest ih =>
    intro res acc
    obtain ⟨v, rs⟩ := p
    simp only [PoValue.inlineText, PoValue.contribution] at ih ⊢
    cases v with
    | other w =>
      simp only [processLoop, List.map_cons, concatAll, poFlatParams,
        PoValue.inlineText, PoValue.contribution]
      rw [ih]
      simp [String.append_assoc]
    | queryLike q ps =>
      simp only [processLoop, List.map_cons, concatAll, poFlatParams,
        PoValue.inlineText, PoValue.contribution]
      rw [ih]
      simp [String.append_assoc]

/-! ### The claims -/

/-- C1: for every Fragment returned by the Composer — through `compose`
itself (the class constructor), the template tag `sql`, `join`, `bulk`, or
`raw` — the number of parameters equals the number of literal segments minus
one. -/
theorem claim_c1_arity_invariant :
    (∀ (V : Type) (ss : List String) (vs : List (RawValue V)) (q : Sql V),
        compose ss vs = .ok q → q.values.length = q.strings.length - 1)
  ∧ (∀ (V : Type) (ss : List String) (vs : List (RawValue V)) (q : Sql V),
        sql ss vs = .ok q → q.values.length = q.strings.length - 1)
  ∧ (∀ (V : Type) (vs : List (RawValue V)) (sep pre suf : String) (q : Sql V),
        join vs sep pre suf = .ok q → q.values.length = q.strings.length - 1)
  ∧ (∀ (V : Type) (data : List (List (RawValue V))) (sep pre suf : String)
        (q : Sql V),
        bulk data sep pre suf = .ok q → q.values.length = q.strings.length - 1)
  ∧ (∀ (V : Type) (v : String) (q : Sql V),
        raw v = .ok q → q.values.length = q.strings.length - 1) := by
  refine ⟨?_, ?_, ?_, ?_, ?_⟩
  · intro V ss vs q h
    have hwf := compose_ok_wf ss vs q h
    simp only [Sql.WF] at hwf
    omega
  · intro V ss vs q h
    have hwf := compose_ok_wf ss vs q h
    simp only [Sql.WF] at hwf
    omega
  · intro V vs sep pre suf q h
    by_cases hz : vs.length = 0
    · simp [join, hz] at h
    · simp only [join, if_neg hz] at h
      have hwf := compose_ok_wf _ _ _ h
      simp only [Sql.WF] at hwf
      omega
  · intro V data sep pre suf q h
    cases data with
    | nil => rw [bulk_nil] at h; cases h
    | cons r0 rest =>
      by_cases hz : r0.length = 0
      · have hr0 : r0 = [] := List.length_eq_zero.mp hz
        subst hr0
        rw [bulk_nil_row] at h
        cases h
      · rw [bulk_cons r0 rest sep pre suf hz] at h
        cases hbr : bulkRows sep r0.length 0 (r0 :: rest) with
        | error e => rw [hbr, exceptErrorBind] at h; cases h
        | ok frs =>
          rw [hbr, exceptOkBind] at h
          have hwf := compose_ok_wf _ _ _ h
          simp only [Sql.WF] at hwf
          omega
  · intro V v q h
    have hwf := compose_ok_wf _ _ _ h
    simp only [Sql.WF] at hwf
    omega

/-- C2: composing an input containing nested fragments yields segments and
parameters identical to composing the fully pre-flattened equivalent input
(the spec-side `specPreflatten`) directly, with the flattened values supplied
as scalars.  Nested fragments are themselves composer outputs, hence already
flat and well formed, so this one-level statement erases nesting at any
depth. -/
theorem claim_c2_flattening :
    ∀ (V : Type) (ss : List String) (vs : List (RawValue V)),
      ss.length = vs.length + 1 → (∀ v ∈ vs, v.WF) →
      compose ss vs =
        compose (specPreflatten ss vs).1
          ((specPreflatten ss vs).2.map RawValue.scalar) := by
  intro V ss vs harity hwf
  cases ss with
  | nil => simp at harity
  | cons s0 tail =>
    have hlen : vs.length = tail.length := by
      simp only [List.length_cons] at harity
      omega
    have hpre := composeAux_preflatten vs s0 tail hlen hwf
    have hcl := composeAux_length (vs.zip tail) s0
    rw [hpre] at hcl
    rw [compose_eq_ok _ _ harity]
    simp only [List.headD_cons, List.tail_cons]
    rw [hpre]
    have harity2 : (specPreflatten (s0 :: tail) vs).1.length =
        ((specPreflatten (s0 :: tail) vs).2.map RawValue.scalar).length + 1 := by
      simpa using hcl
    rw [compose_eq_ok _ _ harity2]
    cases hq : (specPreflatten (s0 :: tail) vs).1 with
    | nil => rw [hq] at hcl; simp at hcl
    | cons f0 ftail =>
      have hl3 : (specPreflatten (s0 :: tail) vs).2.length = ftail.length := by
        rw [hq] at hcl
        simp only [List.length_cons] at hcl
        omega
      simp only [List.headD_cons, List.tail_cons]
      rw [composeAux_scalars _ f0 ftail hl3]

/-- C3: for every valid input the output parameter list is exactly the
left-to-right concatenation of the scalar values and of nested fragments'
parameters as they appear in the source sequence (`flatParams`): no
reordering and no deduplication, a value used twice occupying two independent
slots. -/
theorem claim_c3_param_order :
    ∀ (V : Type) (ss : List String) (vs : List (RawValue V)),
      ss.length = vs.length + 1 → (∀ v ∈ vs, v.WF) →
      ∃ q : Sql V, compose ss vs = .ok q ∧ q.values = flatParams vs := by
  intro V ss vs harity hwf
  cases ss with
  | nil => simp at harity
  | cons s0 tail =>
    have hlen : vs.length = tail.length := by
      simp only [List.length_cons] at harity
      omega
    refine ⟨_, compose_eq_ok _ _ harity, ?_⟩
    simp only [List.headD_cons, List.tail_cons]
    exact composeAux_values vs s0 tail hlen hwf

/-- C4: the Composer fails with EmptyTemplate exactly when the literal
segment list is empty, fails with ArityMismatch exactly when the segment list
is non-empty and its length is not one more than the value count (carrying
the segment count and the expected value count, which its message states),
and otherwise returns a Fragment. -/
theorem claim_c4_composer_errors :
    ∀ (V : Type) (ss : List String) (vs : List (RawValue V)),
      (compose ss vs = .error .emptyTemplate ↔ ss = [])
    ∧ (ss ≠ [] → ss.length ≠ vs.length + 1 →
        compose ss vs = .error (.arityMismatch ss.length (ss.length - 1)))
    ∧ ((∃ n e, compose ss vs = .error (.arityMismatch n e)) ↔
        ss ≠ [] ∧ ss.length ≠ vs.length + 1)
    ∧ (ss.length = vs.length + 1 → ∃ q, compose ss vs = .ok q)
    ∧ (SqlError.arityMismatch ss.length (ss.length - 1)).message =
        "Expected " ++ Nat.repr ss.length ++ " strings to have " ++
          Nat.repr (ss.length - 1) ++ " values" := by
  intro V ss vs
  refine ⟨?_, ?_, ?_, ?_, rfl⟩
  · constructor
    · intro h
      by_cases hnil : ss = []
      · exact hnil
      · by_cases harity : ss.length = vs.length + 1
        · rw [compose_eq_ok ss vs harity] at h
          simp at h
        · rw [compose_mismatch ss vs hnil harity] at h
          simp at h
    · intro h
      subst h
      exact compose_nil vs
  · exact fun hnil harity => compose_mismatch ss vs hnil harity
  · constructor
    · rintro ⟨n, e, h⟩
      by_cases hnil : ss = []
      · subst hnil
        rw [compose_nil] at h
        simp at h
      · by_cases harity : ss.length = vs.length + 1
        · rw [compose_eq_ok ss vs harity] at h
          simp at h
        · exact ⟨hnil, harity⟩
    · rintro ⟨hnil, harity⟩
      exact ⟨_, _, compose_mismatch ss vs hnil harity⟩
  · intro harity
    exact ⟨_, compose_eq_ok ss vs harity⟩

/-- C5: join on a non-empty list equals composing the literal segments
consisting of the leading literal, one separator per gap (exactly one fewer
than the number of values) and the trailing literal against the values; a
single-element input composes against just the leading and trailing literals
with no separator; join fails with EmptyJoinInput exactly on the empty
list. -/
theorem claim_c5_join_formula :
    ∀ (V : Type) (vs : List (RawValue V)) (v : RawValue V) (x : V)
      (sep pre suf : String),
      (join vs sep pre suf = .error .emptyJoinInput ↔ vs = [])
    ∧ (vs ≠ [] → join vs sep pre suf =
        compose (pre :: (List.replicate (vs.length - 1) sep ++ [suf])) vs)
    ∧ (join [v] sep pre suf = compose [pre, suf] [v])
    ∧ (join [RawValue.scalar x] sep pre suf = .ok ⟨[pre, suf], [x]⟩) := by
  intro V vs v x sep pre suf
  refine ⟨?_, ?_, ?_, ?_⟩
  · constructor
    · intro h
      by_cases hz : vs.length = 0
      · exact List.length_eq_zero.mp hz
      · simp only [join, if_neg hz] at h
        have harity :
            (pre :: (List.replicate (vs.length - 1) sep ++ [suf])).length =
              vs.length + 1 := by
          simp
          omega
        rw [compose_eq_ok _ _ harity] at h
        simp at h
    · intro h
      subst h
      simp [join]
  · intro hz0
    have hz : ¬(vs.length = 0) := by
      simpa [List.length_eq_zero] using hz0
    simp only [join, if_neg hz]
  · simp [join, List.replicate]
  · have h3 : join [RawValue.scalar x] sep pre suf =
        compose [pre, suf] [RawValue.scalar x] := by
      simp [join, List.replicate]
    rw [h3, compose_eq_ok _ _ (by simp)]
    simp [composeAux]

/-- C6: for rows satisfying bulk's preconditions, bulk equals building one
parenthesized tuple fragment per row with the Composer (literal segments
"(", one separator per gap, ")") and joining those fragments with the List
Join Builder under the caller's separator, leading and trailing literals;
with default arguments bulk [[1,2],[3,4]] renders anonymous-marker text
"(?,?),(?,?)" with parameters [1,2,3,4] in that order. -/
theorem claim_c6_bulk_refinement :
    (∀ (V : Type) (data : List (List (RawValue V))) (sep pre suf : String)
        (r0 : List (RawValue V)) (rest : List (List (RawValue V))),
        data = r0 :: rest → r0 ≠ [] → (∀ r ∈ data, r.length = r0.length) →
        bulk data sep pre suf =
          (data.mapM fun row =>
            compose ("(" :: (List.replicate (row.length - 1) sep ++ [")"])) row) >>=
            fun frs => join (frs.map RawValue.frag) sep pre suf)
  ∧ bulk [[RawValue.scalar 1, RawValue.scalar 2],
      [RawValue.scalar 3, RawValue.scalar (4 : Nat)]] "," "" "" =
      .ok ⟨["(", ",", "),(", ",", ")"], [1, 2, 3, 4]⟩
  ∧ Sql.sql (⟨["(", ",", "),(", ",", ")"], [1, 2, 3, 4]⟩ : Sql Nat) = "(?,?),(?,?)"
  ∧ (⟨["(", ",", "),(", ",", ")"], [1, 2, 3, 4]⟩ : Sql Nat).values = [1, 2, 3, 4] := by
  refine ⟨?_, by rfl, by rfl, rfl⟩
  intro V data sep pre suf r0 rest hdata hr0 hall
  subst hdata
  have hz : r0.length ≠ 0 := by
    simpa [List.length_eq_zero] using hr0
  obtain ⟨frs, hfrs, hlenfrs⟩ := rowFrags_ok sep r0.length hz (r0 :: rest) hall
  rw [bulk_cons r0 rest sep pre suf hz,
    bulkRows_eq_mapM sep r0.length (r0 :: rest) 0 hall, hfrs]
  simp only [exceptOkBind]
  have hfl : ¬(frs.length = 0) := by
    simp only [List.length_cons] at hlenfrs
    omega
  simp only [join, List.length_map]
  rw [if_neg hfl]

/-- C7: bulk fails with EmptyBulkInput exactly when the row list or the
first row is empty; with a nonempty first row it fails with RaggedBulkInput
at the first row index whose length differs from the first row's, carrying
that index and both lengths (and its message states them); when every row
has the first row's length it succeeds with no error.  The spec's example
bulk [[1,2],[1,3],[1]] fails identifying row index 2. -/
theorem claim_c7_bulk_error_taxonomy :
    (∀ (V : Type) (data : List (List (RawValue V))) (sep pre suf : String),
        (bulk data sep pre suf = .error .emptyBulkInput ↔
          data = [] ∨ data.head? = some [])
      ∧ (∀ (r0 : List (RawValue V)) (rest : List (List (RawValue V))) (i : Nat),
          data = r0 :: rest → r0 ≠ [] →
          i < data.length → (data.getD i []).length ≠ r0.length →
          (∀ j < i, (data.getD j []).length = r0.length) →
          bulk data sep pre suf =
            .error (.raggedBulkInput i r0.length (data.getD i []).length))
      ∧ (∀ (r0 : List (RawValue V)) (rest : List (List (RawValue V))),
          data = r0 :: rest → r0 ≠ [] → (∀ r ∈ data, r.length = r0.length) →
          (bulk data sep pre suf).isOk = true))
  ∧ bulk [[RawValue.scalar 1, RawValue.scalar 2],
      [RawValue.scalar 1, RawValue.scalar 3], [RawValue.scalar (1 : Nat)]]
      "," "" "" = .error (.raggedBulkInput 2 2 1)
  ∧ (SqlError.raggedBulkInput 2 2 1).message =
      "Expected `bulk([2][])` to have a length of 2, but got 1" := by
  refine ⟨?_, by rfl, rfl⟩
  intro V data sep pre suf
  have hB : ∀ (r0 : List (RawValue V)) (rest : List (List (RawValue V))) (i : Nat),
      data = r0 :: rest → r0 ≠ [] →
      i < data.length → (data.getD i []).length ≠ r0.length →
      (∀ j < i, (data.getD j []).length = r0.length) →
      bulk data sep pre suf =
        .error (.raggedBulkInput i r0.length (data.getD i []).length) := by
    intro r0 rest i hdata hr0 hi hdiff hbefore
    subst hdata
    have hz : r0.length ≠ 0 := by
      simpa [List.length_eq_zero] using hr0
    rw [bulk_cons r0 rest sep pre suf hz,
      bulkRows_ragged sep r0.length hz (r0 :: rest) 0 i hi hdiff hbefore,
      exceptErrorBind, Nat.zero_add]
  have hC : ∀ (r0 : List (RawValue V)) (rest : List (List (RawValue V))),
      data = r0 :: rest → r0 ≠ [] → (∀ r ∈ data, r.length = r0.length) →
      (bulk data sep pre suf).isOk = true := by
    intro r0 rest hdata hr0 hall
    subst hdata
    have hz : r0.length ≠ 0 := by
      simpa [List.length_eq_zero] using hr0
    obtain ⟨frs, hfrs, hlenfrs⟩ := rowFrags_ok sep r0.length hz (r0 :: rest) hall
    rw [bulk_cons r0 rest sep pre suf hz,
      bulkRows_eq_mapM sep r0.length (r0 :: rest) 0 hall, hfrs]
    simp only [exceptOkBind]
    have harity : (pre :: (List.replicate (frs.length - 1) sep ++ [suf])).length =
        (frs.map (RawValue.frag (V := V))).length + 1 := by
      simp only [List.length_cons] at hlenfrs
      simp
      omega
    rw [compose_eq_ok _ _ harity]
    rfl
  refine ⟨?_, hB, hC⟩
  constructor
  · intro h
    by_contra hcon
    push_neg at hcon
    obtain ⟨hne, hhead⟩ := hcon
    cases data with
    | nil => exact hne rfl
    | cons r0 rest =>
      have hr0 : r0 ≠ [] := by
        intro hh
        subst hh
        exact hhead (by simp)
      by_cases hall : ∀ r ∈ (r0 :: rest), r.length = r0.length
      · have hok := hC r0 rest rfl hr0 hall
        rw [h] at hok
        simp [Except.isOk, Except.toBool] at hok
      · push_neg at hall
        obtain ⟨r, hrmem, hrne⟩ := hall
        have hex : ∃ i, i < (r0 :: rest).length ∧
            ((r0 :: rest).getD i []).length ≠ r0.length := by
          obtain ⟨n, hn, hget⟩ := List.getElem_of_mem hrmem
          refine ⟨n, hn, ?_⟩
          rw [List.getD_eq_getElem _ _ hn, hget]
          exact hrne
        have hfind := Nat.find_spec hex
        have hmin : ∀ j < Nat.find hex, ((r0 :: rest).getD j []).length = r0.length := by
          intro j hj
          have hjlen : j < (r0 :: rest).length := by
            have h1 := hfind.1
            omega
          by_contra hne2
          exact Nat.find_min hex hj ⟨hjlen, hne2⟩
        have hrag := hB r0 rest (Nat.find hex) rfl hr0 hfind.1 hfind.2 hmin
        rw [h] at hrag
        simp at hrag
  · intro h
    rcases h with rfl | hh
    · exact bulk_nil sep pre suf
    · cases data with
      | nil => simp at hh
      | cons r0 rest =>
        simp only [List.head?_cons, Option.some.injEq] at hh
        subst hh
        exact bulk_nil_row rest sep pre suf

/-- C8: the three rendering views interleave the fragment's segments, in
order, with exactly one fewer marker than there are segments — the anonymous
marker, the numbered markers starting at "$1", and the alternate numbered
markers starting at ":1" respectively — differing only in the marker text,
while the params accessor returns the parameter list unchanged and in
order. -/
theorem claim_c8_rendering_views :
    ∀ (V : Type) (s : Sql V),
      s.sql = interleave s.strings (anonMarkers (s.strings.length - 1))
    ∧ s.text = interleave s.strings (dollarMarkers (s.strings.length - 1))
    ∧ s.statement = interleave s.strings (colonMarkers (s.strings.length - 1))
    ∧ (anonMarkers (s.strings.length - 1)).length = s.strings.length - 1
    ∧ (dollarMarkers (s.strings.length - 1)).length = s.strings.length - 1
    ∧ (colonMarkers (s.strings.length - 1)).length = s.strings.length - 1
    ∧ s.params = s.values := by
  intro V s
  refine ⟨sql_eq_interleave s, text_eq_interleave s, statement_eq_interleave s,
    ?_, ?_, ?_, rfl⟩
  · simp [anonMarkers]
  · simp [dollarMarkers]
  · simp [colonMarkers]

/-- C9 counterexample: raw "?" is a Fragment produced by the Composer whose
anonymous-marker rendering contains one occurrence of the marker character
while its parameter list is empty, so the rendered text does not contain
exactly as many placeholder-marker occurrences as there are parameters. -/
theorem claim_c9_counterexample :
    (raw "?" : Except SqlError (Sql Nat)) = .ok ⟨["?"], []⟩
  ∧ countChar '?' (Sql.sql (⟨["?"], []⟩ : Sql Nat)) = 1
  ∧ (⟨["?"], []⟩ : Sql Nat).values.length = 0 := by
  refine ⟨rfl, ?_, rfl⟩
  rfl

/-- C9 (amended): for every composed Fragment and every marker style the
rendering interleaves exactly one marker per parameter; provided no literal
segment itself contains the marker's distinguishing character ('?', '$' or
':' respectively — raw text may inject such characters, which is what the
counterexample exploits), the rendered text contains exactly as many
occurrences of that character as there are parameters. -/
theorem claim_c9_placeholder_count :
    ∀ (V : Type) (s : Sql V), s.strings.length = s.values.length + 1 →
      ((∀ t ∈ s.strings, countChar '?' t = 0) →
        countChar '?' s.sql = s.values.length)
    ∧ ((∀ t ∈ s.strings, countChar '$' t = 0) →
        countChar '$' s.text = s.values.length)
    ∧ ((∀ t ∈ s.strings, countChar ':' t = 0) →
        countChar ':' s.statement = s.values.length) := by
  intro V s hwf
  have hn : s.strings.length - 1 = s.values.length := by omega
  refine ⟨?_, ?_, ?_⟩
  · intro hseg
    rw [sql_eq_interleave s,
      countChar_interleave '?' s.strings (anonMarkers (s.strings.length - 1))
        (fun m hm => countChar_anonMarkers m _ hm) hseg
        (by simp [anonMarkers]; omega)]
    simp [anonMarkers, hn]
  · intro hseg
    rw [text_eq_interleave s,
      countChar_interleave '$' s.strings (dollarMarkers (s.strings.length - 1))
        (fun m hm => countChar_dollarMarkers m _ hm) hseg
        (by simp [dollarMarkers]; omega)]
    simp [dollarMarkers, hn]
  · intro hseg
    rw [statement_eq_interleave s,
      countChar_interleave ':' s.strings (colonMarkers (s.strings.length - 1))
        (fun m hm => countChar_colonMarkers m _ hm) hseg
        (by simp [colonMarkers]; omega)]
    simp [colonMarkers, hn]

/-- C10: in the plain-object variant, every raw value that passes the
isQueryObject duck-typing test (any non-null object with both a "query" and a
"params" property, modelled by the queryLike constructor) is treated as a
nested fragment: its query text is inlined verbatim into the output text with
no marker at its slot, and its params — never the value itself — are appended
to the output parameter list, even when the value was intended as an opaque
scalar. -/
theorem claim_c10_query_shaped_inlining :
    ∀ (V : Type) (ss : List String) (vs : List (PoValue V)),
      ss.length = vs.length + 1 →
      processQuery ss vs =
        .ok ⟨interleave ss (vs.map PoValue.inlineText), poFlatParams vs⟩ := by
  intro V ss vs harity
  cases ss with
  | nil => simp at harity
  | cons s0 tail =>
    have hlen : vs.length = tail.length := by
      simp only [List.length_cons] at harity
      omega
    have hc : ¬((((s0 :: tail).length : Int) - 1) ≠ (vs.length : Int)) := by
      simp only [List.length_cons]
      omega
    rw [processQuery, if_neg hc]
    simp only [List.headD_cons, List.tail_cons]
    rw [processLoop_spec]
    have h1 : (vs.zip tail).map Prod.fst = vs :=
      List.map_fst_zip vs tail (by omega)
    have h2 : ((vs.map PoValue.inlineText).zip tail).map (fun p => p.1 ++ p.2) =
        (vs.zip tail).map fun p => p.1.inlineText ++ p.2 := by
      rw [List.zip_map_left]
      simp [List.map_map, Function.comp]
    simp only [interleave, List.headD_cons, List.tail_cons]
    rw [h2, h1]
    simp

/-! ### Witnesses -/

/-- Witness for C1 at concrete inputs of the constructor and of join. -/
theorem claim_c1_witness :
    ((⟨["a", ""], [3]⟩ : Sql Nat).values.length =
      (⟨["a", ""], [3]⟩ : Sql Nat).strings.length - 1)
  ∧ ((⟨["", ",", ""], [1, 2]⟩ : Sql Nat).values.length =
      (⟨["", ",", ""], [1, 2]⟩ : Sql Nat).strings.length - 1) :=
  ⟨claim_c1_arity_invariant.1 Nat ["a", ""] [RawValue.scalar 3] ⟨["a", ""], [3]⟩ rfl,
   claim_c1_arity_invariant.2.2.1 Nat [RawValue.scalar 1, RawValue.scalar 2] "," "" ""
     ⟨["", ",", ""], [1, 2]⟩ rfl⟩

/-- Witness for C2 at a concrete input holding a nested fragment. -/
theorem claim_c2_witness :
    compose ["A", "B"] [RawValue.frag ⟨["x = ", ""], [(7 : Nat)]⟩] =
      compose (specPreflatten ["A", "B"] [RawValue.frag ⟨["x = ", ""], [(7 : Nat)]⟩]).1
        ((specPreflatten ["A", "B"]
          [RawValue.frag ⟨["x = ", ""], [(7 : Nat)]⟩]).2.map RawValue.scalar) :=
  claim_c2_flattening Nat ["A", "B"] [RawValue.frag ⟨["x = ", ""], [7]⟩]
    (by decide) (by decide)

/-- Witness for C3 at a concrete input using the same value twice. -/
theorem claim_c3_witness :
    ∃ q : Sql Nat,
      compose ["s", "", ""] [RawValue.scalar 5, RawValue.scalar 5] = .ok q ∧
      q.values = flatParams [RawValue.scalar 5, RawValue.scalar 5] :=
  claim_c3_param_order Nat ["s", "", ""] [RawValue.scalar 5, RawValue.scalar 5]
    (by decide) (by decide)

/-- Witness for C4 at concrete inputs hitting all three outcomes. -/
theorem claim_c4_witness :
    compose ([] : List String) ([] : List (RawValue Nat)) = .error .emptyTemplate
  ∧ compose ["a", "b", "c"] [RawValue.scalar (1 : Nat)] =
      .error (.arityMismatch 3 2)
  ∧ (∃ q, compose ["a", ""] [RawValue.scalar (1 : Nat)] = .ok q) :=
  ⟨(claim_c4_composer_errors Nat [] []).1.mpr rfl,
   (claim_c4_composer_errors Nat ["a", "b", "c"] [RawValue.scalar 1]).2.1
     (by decide) (by decide),
   (claim_c4_composer_errors Nat ["a", ""] [RawValue.scalar 1]).2.2.2.1 (by decide)⟩

/-- Witness for C5 at concrete inputs: the empty list, a three-element list
and a single-element list. -/
theorem claim_c5_witness :
    join ([] : List (RawValue Nat)) "," "(" ")" = .error .emptyJoinInput
  ∧ join [RawValue.scalar 1, RawValue.scalar 2, RawValue.scalar (3 : Nat)] "," "(" ")" =
      compose ["(", ",", ",", ")"]
        [RawValue.scalar 1, RawValue.scalar 2, RawValue.scalar 3]
  ∧ join [RawValue.scalar (9 : Nat)] " AND " "P" "S" = .ok ⟨["P", "S"], [9]⟩ :=
  ⟨(claim_c5_join_formula Nat [] (RawValue.scalar 0) 0 "," "(" ")").1.mpr rfl,
   (claim_c5_join_formula Nat [RawValue.scalar 1, RawValue.scalar 2, RawValue.scalar 3]
     (RawValue.scalar 0) 0 "," "(" ")").2.1 (by decide),
   (claim_c5_join_formula Nat [RawValue.scalar 9] (RawValue.scalar 9) 9
     " AND " "P" "S").2.2.2⟩

/-- Witness for C6 at a concrete two-by-two input with non-default
arguments. -/
theorem claim_c6_witness :
    bulk [[RawValue.scalar 5, RawValue.scalar 6],
      [RawValue.scalar 7, RawValue.scalar (8 : Nat)]] ";" "<" ">" =
      (([[RawValue.scalar 5, RawValue.scalar 6],
        [RawValue.scalar 7, RawValue.scalar (8 : Nat)]].mapM fun row =>
          compose ("(" :: (List.replicate (row.length - 1) ";" ++ [")"])) row) >>=
        fun frs => join (frs.map RawValue.frag) ";" "<" ">") :=
  claim_c6_bulk_refinement.1 Nat
    [[RawValue.scalar 5, RawValue.scalar 6], [RawValue.scalar 7, RawValue.scalar 8]]
    ";" "<" ">" [RawValue.scalar 5, RawValue.scalar 6]
    [[RawValue.scalar 7, RawValue.scalar 8]] rfl (by decide) (by decide)

/-- Witness for C7 at concrete inputs hitting all three outcomes. -/
theorem claim_c7_witness :
    bulk ([] : List (List (RawValue Nat))) "," "" "" = .error .emptyBulkInput
  ∧ bulk [[RawValue.scalar 1], [RawValue.scalar 2, RawValue.scalar (3 : Nat)]]
      "," "" "" = .error (.raggedBulkInput 1 1 2)
  ∧ (bulk [[RawValue.scalar 1], [RawValue.scalar (2 : Nat)]] "," "" "").isOk = true :=
  ⟨(claim_c7_bulk_error_taxonomy.1 Nat [] "," "" "").1.mpr (Or.inl rfl),
   (claim_c7_bulk_error_taxonomy.1 Nat
     [[RawValue.scalar 1], [RawValue.scalar 2, RawValue.scalar 3]] "," "" "").2.1
     [RawValue.scalar 1] [[RawValue.scalar 2, RawValue.scalar 3]] 1 rfl
     (by decide) (by decide) (by decide) (by decide),
   (claim_c7_bulk_error_taxonomy.1 Nat
     [[RawValue.scalar 1], [RawValue.scalar 2]] "," "" "").2.2
     [RawValue.scalar 1] [[RawValue.scalar 2]] rfl (by decide) (by decide)⟩

/-- Witness for C9 (amended) at a concrete marker-free fragment. -/
theorem claim_c9_witness :
    countChar '?' (Sql.sql (⟨["a", "b"], [(0 : Nat)]⟩ : Sql Nat)) =
      (⟨["a", "b"], [(0 : Nat)]⟩ : Sql Nat).values.length
  ∧ countChar '$' (Sql.text (⟨["a", "b"], [(0 : Nat)]⟩ : Sql Nat)) =
      (⟨["a", "b"], [(0 : Nat)]⟩ : Sql Nat).values.length
  ∧ countChar ':' (Sql.statement (⟨["a", "b"], [(0 : Nat)]⟩ : Sql Nat)) =
      (⟨["a", "b"], [(0 : Nat)]⟩ : Sql Nat).values.length :=
  ⟨(claim_c9_placeholder_count Nat ⟨["a", "b"], [0]⟩ (by decide)).1 (by decide),
   (claim_c9_placeholder_count Nat ⟨["a", "b"], [0]⟩ (by decide)).2.1 (by decide),
   (claim_c9_placeholder_count Nat ⟨["a", "b"], [0]⟩ (by decide)).2.2 (by decide)⟩

/-- Witness for C10 at a concrete input whose single raw value is
query-shaped. -/
theorem claim_c10_witness :
    processQuery ["a", "b"] [PoValue.queryLike "Q" [PoValue.other (7 : Nat)]] =
      .ok ⟨interleave ["a", "b"]
            ([PoValue.queryLike "Q" [PoValue.other (7 : Nat)]].map PoValue.inlineText),
          poFlatParams [PoValue.queryLike "Q" [PoValue.other (7 : Nat)]]⟩ :=
  claim_c10_query_shaped_inlining Nat ["a", "b"]
    [PoValue.queryLike "Q" [PoValue.other 7]] (by decide)

end SqlTemplateTag
